import Mathlib

/-!
Shallow embedding of the buckets threaddb collection from src/core/core.go
(package threaddb): the Bucket/Item/ACL/Archives/Archive/Deal data model,
Bucket.UpsertItemAtPath, the collection ValidatorFunc (an embedded script
evaluated by the store at patch-admission time), Buckets.New,
Buckets.createFFSInstance, SaveSafe / ensureNoNulls, and Buckets.ArchiveStatus.

Modelling conventions:
- Go strings are Lean String; int64 nanosecond timestamps are Int; a
  time.Time argument that is only read through UnixNano is passed as its
  nanosecond value directly; a cid.Cid that is only read through String()
  is passed as its string form directly.
- Go nil maps and nil slices are distinguished from empty ones with Option:
  a field of Go type map[string]Item becomes Option (List (String × Item)),
  a []Deal becomes Option (List Deal).  len of a nil slice is 0.
- A Go runtime panic (write to a nil map, index out of range, method call
  on a nil interface) is modelled as the value none of an Option result.
- External calls (the threaddb store, the Powergate client, the mongodb
  side store) are not code of this file; each call site takes the outcome
  of the call as an explicit Except argument.
- Distinct fmt.Errorf sites are modelled as distinct constructors of an
  error inductive carrying the formatted payload.
-/

namespace Textile

/-- ACL describes access rules for an item (core.go:237-241). -/
structure ACL where
  write : List String
  read : List String
  delete : List String
deriving DecidableEq, Repr

/-- Item describes details about a bucket item (core.go:229-234). -/
structure Item where
  cid : String
  acl : ACL
  createdAt : Int
  updatedAt : Int
deriving DecidableEq, Repr

/-- Deal contains details about a Filecoin deal (core.go:256-259). -/
structure Deal where
  proposalCid : String
  miner : String
deriving DecidableEq, Repr

/-- Archive is a single archive containing a list of deals (core.go:250-253).
The Deals slice may be nil (none) or present (some). -/
structure Archive where
  cid : String
  deals : Option (List Deal)
deriving DecidableEq, Repr

/-- Archives contains all archives for a single bucket (core.go:244-247).
The History slice may be nil (none) or present (some). -/
structure Archives where
  current : Archive
  history : Option (List Archive)
deriving DecidableEq, Repr

/-- The item map of a bucket: Go map[string]Item as an association list
with unique keys (the Go runtime guarantees key uniqueness). -/
abbrev ItemMap := List (String × Item)

/-- Bucket represents the buckets threaddb collection schema
(core.go:215-226).  The Items map may be nil (none) or present (some). -/
structure Bucket where
  key : String
  owner : String
  name : String
  version : Int
  encKey : String
  path : String
  items : Option ItemMap
  archives : Archives
  createdAt : Int
  updatedAt : Int
deriving DecidableEq, Repr

/-- Go map read m[k]: the value at the first occurrence of key k. -/
def getItem : ItemMap → String → Option Item
  | [], _ => none
  | (k, v) :: rest, q => if k = q then some v else getItem rest q

/-- Go map write m[k] = v: replace the first binding of k in place, or
append a new binding when k is absent. -/
def setItem : ItemMap → String → Item → ItemMap
  | [], q, v => [(q, v)]
  | (k, x) :: rest, q, v =>
      if k = q then (q, v) :: rest else (k, x) :: setItem rest q v

/-- Go len of a possibly-nil slice: len(nil) = 0. -/
def lenOpt {α : Type} : Option (List α) → Nat
  | none => 0
  | some l => l.length

/-- The fresh item written by the else branch of UpsertItemAtPath
(core.go:279-292): default ACL is the bucket owner alone when the bucket
has an owner, empty otherwise; both timestamps are the call time. -/
def freshItem (owner : String) (c : String) (nanos : Int) : Item :=
  let acl : List String := if owner ≠ "" then [owner] else []
  { cid := c
    acl := { write := acl, read := acl, delete := acl }
    createdAt := nanos
    updatedAt := nanos }

/-- Bucket.UpsertItemAtPath (core.go:271-295).  nanos is updated.UnixNano()
and c is cid.String().  Go: x, ok := b.Items[pth]; if ok && x.Cid differs,
update Cid and UpdatedAt in place; otherwise write a fresh default item.
When b.Items is a nil map the else branch write panics (none). -/
def upsertItemAtPath (b : Bucket) (pth : String) (c : String) (nanos : Int) :
    Option Bucket :=
  match b.items with
  | none => none
  | some m =>
    match getItem m pth with
    | some x =>
        if x.cid ≠ c then
          some { b with items := some (setItem m pth { x with cid := c, updatedAt := nanos }) }
        else
          some { b with items := some (setItem m pth (freshItem b.owner c nanos)) }
    | none =>
        some { b with items := some (setItem m pth (freshItem b.owner c nanos)) }

/-- One entry of patch.items in a save patch, as seen by the validator
script.  hasAcl models the JavaScript truthiness of p.acl: true exactly
when the JSON patch for this path carries an acl change. -/
structure SaveItemPatch where
  hasAcl : Bool
deriving DecidableEq, Repr

/-- The patch event handed to the validator script.  patchOwner models
event.patch.owner (the wrapper-level owner field, absent when undefined);
jsonPatchOwner models event.patch.json_patch.owner; jsonPatchItems models
event.patch.json_patch.items. -/
inductive PatchEvent where
  | create (jsonPatchOwner : Option String)
  | save (jsonPatchItems : List (String × SaveItemPatch))
  | delete (patchOwner : Option String)
deriving DecidableEq, Repr

/-- The current instance state visible to the validator script for save
and delete patches: instance.owner and instance.items. -/
structure BucketInstance where
  owner : String
  items : ItemMap
deriving DecidableEq, Repr

/-- The script returns true (ok) or a reason string (reject). -/
inductive ValidationResult where
  | ok
  | reject (reason : String)
deriving DecidableEq, Repr

/-- The save-patch loop of the validator script (core.go:346-362): for each
key of patch.items in order, reject when the patch touches that path acl
and the author is not the instance owner; else, when the path exists in
instance.items, reject unless the author is in that item write set; else
reject unless the author is the instance owner. -/
def validateSaveItems (author : String) (inst : BucketInstance) :
    List (String × SaveItemPatch) → ValidationResult
  | [] => .ok
  | (k, p) :: rest =>
      if p.hasAcl && author ≠ inst.owner then
        .reject "only owner can modify bucket access rules"
      else
        match getItem inst.items k with
        | some x =>
            if author ∈ x.acl.write then validateSaveItems author inst rest
            else .reject "author does not have write access"
        | none =>
            if author = inst.owner then validateSaveItems author inst rest
            else .reject "only owner can create new bucket items"

/-- bucketsConfig.ValidatorFunc (core.go:336-371), the embedded script run
by the store before committing a patch.  A strict JavaScript comparison
x !== author where x may be undefined is modelled on Option String as
x ≠ some author. -/
def validatorFunc (ev : PatchEvent) (author : String) (inst : BucketInstance) :
    ValidationResult :=
  match ev with
  | .create jsonPatchOwner =>
      if jsonPatchOwner ≠ some author then
        .reject "author must match new bucket owner"
      else .ok
  | .save jsonPatchItems => validateSaveItems author inst jsonPatchItems
  | .delete patchOwner =>
      if patchOwner ≠ some author then
        .reject "author must match new bucket owner"
      else .ok

/-- ensureNoNulls (core.go:503-514), translated statement by statement.
Go copies the struct value current := b.Archives.Current before the inner
normalization writes b.Archives.Current, and the final write rebuilds
b.Archives from that earlier copy, so the inner write is overwritten. -/
def ensureNoNulls (b : Bucket) : Bucket :=
  let b := if b.items = none then { b with items := some [] } else b
  if lenOpt b.archives.history = 0 then
    let current := b.archives.current
    let b :=
      if lenOpt current.deals = 0 then
        { b with archives := { b.archives with current := { cid := "", deals := some [] } } }
      else b
    { b with archives := { current := current, history := some [] } }
  else b

/-- Buckets.SaveSafe (core.go:498-501) normalizes the record and submits it
with Save; the record handed to the store is ensureNoNulls of the input,
and the call returns the store save outcome. -/
def saveSafe (b : Bucket) (saveRes : Bucket → Except String Unit) :
    Bucket × Except String Unit :=
  let nb := ensureNoNulls b
  (nb, saveRes nb)

instance {ε α : Type} [DecidableEq ε] [DecidableEq α] : DecidableEq (Except ε α) := fun a b =>
  match a, b with
  | .ok x, .ok y =>
      if h : x = y then .isTrue (by rw [h]) else .isFalse (by intro hc; cases hc; exact h rfl)
  | .error x, .error y =>
      if h : x = y then .isTrue (by rw [h]) else .isFalse (by intro hc; cases hc; exact h rfl)
  | .ok _, .error _ => .isFalse (by intro hc; cases hc)
  | .error _, .ok _ => .isFalse (by intro hc; cases hc)

/-- The outcome of thread.Token.PubKey() on a defined token: a parse error,
a nil public key, or the token subject. -/
inductive TokenState where
  | absent
  | present (pubKeyRes : Except String (Option String))
deriving DecidableEq, Repr

/-- The distinct error sites of Buckets.New (core.go:414-457). -/
inductive NewErr where
  | tokenPubKeyErr (e : String)
  | tokenOwnerMismatch
  | createErr (e : String)
  | ffsErr (e : String)
deriving DecidableEq, Repr

/-- Buckets.New (core.go:414-457).  owner is the owner argument as
Option String (none models a nil thread.PubKey); encKeyArg is the
base64-encoded args.Key when supplied; createRes is the store Create
outcome (the new instance id on success); ffsRes is the
createFFSInstance outcome.  A nil owner compared against a present token
subject calls String() on a nil interface, a panic (none). -/
def bucketsNew (key : String) (pth : String) (owner : Option String)
    (name : String) (encKeyArg : Option String) (tok : TokenState)
    (now : Int) (createRes : Except String String)
    (ffsRes : Except String Unit) : Option (Except NewErr Bucket) :=
  let encKey := encKeyArg.getD ""
  let afterTokenCheck : Option (Except NewErr Bucket) :=
    let bucket : Bucket :=
      { key := key
        owner := owner.getD ""
        name := name
        version := 1
        encKey := encKey
        path := pth
        items := some []
        archives := { current := { cid := "", deals := some [] }, history := some [] }
        createdAt := now
        updatedAt := now }
    match createRes with
    | .error e => some (.error (.createErr e))
    | .ok id =>
        let bucket := { bucket with key := id }
        match ffsRes with
        | .error e => some (.error (.ffsErr e))
        | .ok _ => some (.ok bucket)
  match tok with
  | .absent => afterTokenCheck
  | .present pubKeyRes =>
      match pubKeyRes with
      | .error e => some (.error (.tokenPubKeyErr e))
      | .ok none => afterTokenCheck
      | .ok (some s) =>
          match owner with
          | none => none
          | some o => if o ≠ s then some (.error .tokenOwnerMismatch) else afterTokenCheck

/-- The distinct error sites of Buckets.createFFSInstance
(core.go:464-495). -/
inductive FFSStepErr where
  | createErr (e : String)
  | infoErr (e : String)
  | saveErr (e : String)
  | setConfigErr (e : String)
deriving DecidableEq, Repr

/-- Buckets.createFFSInstance (core.go:464-495).  pgConfigured is whether
b.pgClient is non-nil; createRes is the FFS.Create outcome (the auth
token); infoRes is the FFS.Info outcome, reduced to the list of balance
addresses; saveRes is the ffsCol.Create outcome; setCfgRes is the
FFS.SetDefaultConfig outcome.  On success the returned string is the
funding address i.Balances[0].Addr that was persisted and written into
the default config; indexing an empty balance list is a panic (none). -/
def createFFSInstance (pgConfigured : Bool)
    (createRes : Except String String)
    (infoRes : Except String (List String))
    (saveRes : Except String Unit) (setCfgRes : Except String Unit) :
    Option (Except FFSStepErr (Option String)) :=
  if !pgConfigured then some (.ok none)
  else
    match createRes with
    | .error e => some (.error (.createErr e))
    | .ok _token =>
        match infoRes with
        | .error e => some (.error (.infoErr e))
        | .ok balances =>
            match balances with
            | [] => none
            | waddr :: _ =>
                match saveRes with
                | .error e => some (.error (.saveErr e))
                | .ok _ =>
                    match setCfgRes with
                    | .error e => some (.error (.setConfigErr e))
                    | .ok _ => some (.ok (some waddr))

/-- The persisted archive tracking record of an FFS instance, as read back
by ffsCol.Get.  Modelled from the spec and the fields core.go reads:
Get(ctx, bucketKey) yields archives.current with jobID, jobStatus,
failureMsg, aborted, abortedMsg (the mongodb struct itself is outside
src/). -/
structure FFSCurrentArchive where
  jobID : String
  jobStatus : Int
  failureMsg : String
  aborted : Bool
  abortedMsg : String
deriving DecidableEq, Repr

/-- The FFS instance metadata record relevant to ArchiveStatus. -/
structure FFSInstanceRec where
  current : FFSCurrentArchive
deriving DecidableEq, Repr

/-- The distinct failure outcomes of Buckets.ArchiveStatus
(core.go:518-532).  In Go each failure returns ffs.Failed together with
the error; the error value alone distinguishes the cases. -/
inductive ArchiveStatusErr where
  | getErr (e : String)
  | noCurrentArchive
  | abortedErr (msg : String)
deriving DecidableEq, Repr

/-- Buckets.ArchiveStatus (core.go:518-532), as a function of the metadata
fetch outcome: a fetch error is wrapped; an empty current job id fails
with ErrNoCurrentArchive; an aborted current archive fails with the
recorded abort message; otherwise the persisted job status and failure
message are returned. -/
def archiveStatus (getRes : Except String FFSInstanceRec) :
    Except ArchiveStatusErr (Int × String) :=
  match getRes with
  | .error e => .error (.getErr e)
  | .ok ffsi =>
      if ffsi.current.jobID = "" then .error .noCurrentArchive
      else if ffsi.current.aborted then .error (.abortedErr ffsi.current.abortedMsg)
      else .ok (ffsi.current.jobStatus, ffsi.current.failureMsg)

/-- A concrete empty bucket owned by o, used as a test vehicle. -/
def demoBucket : Bucket :=
  { key := "k"
    owner := "o"
    name := ""
    version := 1
    encKey := ""
    path := ""
    items := some []
    archives := { current := { cid := "", deals := some [] }, history := some [] }
    createdAt := 0
    updatedAt := 0 }

/-- A concrete bucket whose current archive has a nil Deals slice and an
empty history. -/
def nilDealsBucket : Bucket :=
  { demoBucket with
    archives := { current := { cid := "ac", deals := none }, history := some [] } }

/-- A concrete bucket whose history holds an archive with a nil Deals
slice. -/
def nilHistDealsBucket : Bucket :=
  { demoBucket with
    archives := { current := { cid := "ac", deals := some [] },
                  history := some [{ cid := "hc", deals := none }] } }

/-- A concrete item with a non-default ACL and timestamps, at cid c1. -/
def demoItem : Item :=
  { cid := "c1"
    acl := { write := ["w1", "w2"], read := ["r1"], delete := ["d1"] }
    createdAt := 3
    updatedAt := 4 }

/-- A concrete item map holding demoItem at path p and another item at
path q. -/
def demoMap : ItemMap :=
  [("p", demoItem),
   ("q", { cid := "cq", acl := { write := ["o"], read := ["o"], delete := ["o"] },
           createdAt := 1, updatedAt := 1 })]

/-- demoBucket populated with demoMap. -/
def demoBucketWithItems : Bucket := { demoBucket with items := some demoMap }

/-- A metadata record with no current job id recorded. -/
def noJobRec : FFSInstanceRec :=
  { current := { jobID := "", jobStatus := 0, failureMsg := "", aborted := false, abortedMsg := "" } }

/-- A metadata record whose current archive was aborted with message boom. -/
def abortedRec : FFSInstanceRec :=
  { current := { jobID := "j", jobStatus := 0, failureMsg := "", aborted := true, abortedMsg := "boom" } }

/-- A metadata record with a live job of status 5 and failure message f. -/
def liveJobRec : FFSInstanceRec :=
  { current := { jobID := "j", jobStatus := 5, failureMsg := "f", aborted := false, abortedMsg := "" } }

theorem getItem_setItem_self (m : ItemMap) (k : String) (v : Item) :
    getItem (setItem m k v) k = some v := by
  induction m with
  | nil => simp [setItem, getItem]
  | cons hd tl ih =>
      obtain ⟨hk, hv⟩ := hd
      by_cases h : hk = k
      · simp [setItem, getItem, h]
      · simp [setItem, getItem, h, ih]

theorem getItem_setItem_other (m : ItemMap) (k q : String) (v : Item)
    (hq : q ≠ k) : getItem (setItem m k v) q = getItem m q := by
  have hk : k ≠ q := fun h => hq h.symm
  induction m with
  | nil => simp [setItem, getItem, hk]
  | cons hd tl ih =>
      obtain ⟨a, x⟩ := hd
      by_cases h : a = k
      · subst h
        simp [setItem, getItem, hk]
      · simp [setItem, getItem, h, ih]

/-- C8: for every create patch, the Validator accepts the patch iff the
patch owner field equals the author identity; otherwise it rejects with
the authorization error "author must match new bucket owner". -/
theorem create_patch_accept_iff (po : Option String) (author : String)
    (inst : BucketInstance) :
    (validatorFunc (.create po) author inst = .ok ↔ po = some author) ∧
    (po ≠ some author →
      validatorFunc (.create po) author inst =
        .reject "author must match new bucket owner") := by
  refine ⟨⟨fun h => ?_, fun h => by simp [validatorFunc, h]⟩,
    fun h => by simp [validatorFunc, h]⟩
  by_cases hp : po = some author
  · exact hp
  · simp [validatorFunc, hp] at h

theorem create_patch_accept_iff_witness :
    validatorFunc (.create (some "a")) "a" { owner := "a", items := [] } = .ok ∧
    validatorFunc (.create (some "b")) "a" { owner := "a", items := [] } =
      .reject "author must match new bucket owner" :=
  ⟨(create_patch_accept_iff (some "a") "a" { owner := "a", items := [] }).1.mpr rfl,
   (create_patch_accept_iff (some "b") "a" { owner := "a", items := [] }).2 (by decide)⟩

/-- C5 counterexample: a delete patch whose wrapper owner field is "bob"
is rejected even though the author "alice" equals the current instance
owner, so acceptance is not equivalent to author = instance owner. -/
theorem delete_patch_instance_owner_counterexample :
    validatorFunc (.delete (some "bob")) "alice" { owner := "alice", items := [] } =
      .reject "author must match new bucket owner" ∧
    ¬ (validatorFunc (.delete (some "bob")) "alice" { owner := "alice", items := [] } = .ok ↔
       "alice" = BucketInstance.owner { owner := "alice", items := [] }) := by
  constructor
  · rfl
  · intro h
    have : validatorFunc (.delete (some "bob")) "alice" { owner := "alice", items := [] } = .ok :=
      h.mpr rfl
    simp [validatorFunc] at this

/-- C5 amended: for every delete patch, the Validator accepts iff the
patch owner field (event.patch.owner) equals the author, rejecting
otherwise with reason "author must match new bucket owner". -/
theorem delete_patch_accept_iff (po : Option String) (author : String)
    (inst : BucketInstance) :
    (validatorFunc (.delete po) author inst = .ok ↔ po = some author) ∧
    (po ≠ some author →
      validatorFunc (.delete po) author inst =
        .reject "author must match new bucket owner") := by
  refine ⟨⟨fun h => ?_, fun h => by simp [validatorFunc, h]⟩,
    fun h => by simp [validatorFunc, h]⟩
  by_cases hp : po = some author
  · exact hp
  · simp [validatorFunc, hp] at h

theorem delete_patch_accept_iff_witness :
    validatorFunc (.delete (some "a")) "a" { owner := "z", items := [] } = .ok ∧
    validatorFunc (.delete (some "b")) "a" { owner := "z", items := [] } =
      .reject "author must match new bucket owner" :=
  ⟨(delete_patch_accept_iff (some "a") "a" { owner := "z", items := [] }).1.mpr rfl,
   (delete_patch_accept_iff (some "b") "a" { owner := "z", items := [] }).2 (by decide)⟩

/-- The instance used by the C1 counterexample: owner o, and an existing
item at path p whose write set is the singleton w (o is not in it). -/
def c1Item : Item :=
  { cid := "c", acl := { write := ["w"], read := [], delete := [] },
    createdAt := 0, updatedAt := 0 }

def c1Inst : BucketInstance := { owner := "o", items := [("p", c1Item)] }

/-- C1 counterexample: a save patch touching the ACL of the existing path
p, authored by the owner o who is not in the item write set: the claim
condition (author in Write set, or author = owner when the patch modifies
the ACL) holds, yet the validator rejects with
"author does not have write access".  Acceptance therefore is not
equivalent to that disjunction. -/
theorem save_existing_path_claim_counterexample :
    validatorFunc (.save [("p", { hasAcl := true })]) "o" c1Inst =
      .reject "author does not have write access" ∧
    ¬ (validatorFunc (.save [("p", { hasAcl := true })]) "o" c1Inst = .ok ↔
       ("o" ∈ c1Item.acl.write ∨
        ("o" = c1Inst.owner ∧ SaveItemPatch.hasAcl { hasAcl := true } = true))) := by
  constructor
  · rfl
  · intro h
    have : validatorFunc (.save [("p", { hasAcl := true })]) "o" c1Inst = .ok :=
      h.mpr (Or.inr ⟨rfl, rfl⟩)
    simp [validatorFunc, validateSaveItems, c1Inst, c1Item, getItem] at this

/-- C1 amended: for every author, instance, and path k that already exists
in the instance Items with item x, the Validator accepts the save patch
for that path iff the author is a member of the item existing Write set
and, when the patch modifies that path ACL, the author equals the current
owner; otherwise it rejects with one of the two authorization reasons. -/
theorem save_existing_path_accept_iff (author k : String) (p : SaveItemPatch)
    (inst : BucketInstance) (x : Item) (hx : getItem inst.items k = some x) :
    (validatorFunc (.save [(k, p)]) author inst = .ok ↔
      (author ∈ x.acl.write ∧ (p.hasAcl = true → author = inst.owner))) ∧
    (¬ (author ∈ x.acl.write ∧ (p.hasAcl = true → author = inst.owner)) →
      validatorFunc (.save [(k, p)]) author inst =
          .reject "only owner can modify bucket access rules" ∨
      validatorFunc (.save [(k, p)]) author inst =
          .reject "author does not have write access") := by
  obtain ⟨hasAcl⟩ := p
  cases hasAcl with
  | false =>
      by_cases hw : author ∈ x.acl.write <;>
        simp [validatorFunc, validateSaveItems, hx, hw]
  | true =>
      by_cases ho : author = inst.owner
      · by_cases hw : author ∈ x.acl.write
        · rw [ho] at hw
          simp [validatorFunc, validateSaveItems, hx, hw, ho]
        · rw [ho] at hw
          simp [validatorFunc, validateSaveItems, hx, hw, ho]
      · by_cases hw : author ∈ x.acl.write <;>
          simp [validatorFunc, validateSaveItems, hx, hw, ho]

theorem save_existing_path_accept_iff_witness :
    validatorFunc (.save [("p", { hasAcl := false })]) "w" c1Inst = .ok ∧
    (validatorFunc (.save [("p", { hasAcl := true })]) "o" c1Inst =
        .reject "only owner can modify bucket access rules" ∨
     validatorFunc (.save [("p", { hasAcl := true })]) "o" c1Inst =
        .reject "author does not have write access") :=
  ⟨(save_existing_path_accept_iff "w" "p" { hasAcl := false } c1Inst c1Item
      (by decide)).1.mpr (by decide),
   (save_existing_path_accept_iff "o" "p" { hasAcl := true } c1Inst c1Item
      (by decide)).2 (by decide)⟩

/-- C2 failing evaluation: on demoBucket (owner o), upserting path p with
cid c at time 1 creates the item with CreatedAt = UpdatedAt = 1; a second
upsert of the same path with the same cid at time 2 falls into the else
branch of UpsertItemAtPath and overwrites the item with a fresh default
item whose CreatedAt = UpdatedAt = 2, so CreatedAt and UpdatedAt are not
unchanged by the second call. -/
theorem upsert_same_cid_second_call_resets :
    (upsertItemAtPath demoBucket "p" "c" 1).bind
        (fun b1 => b1.items.bind (fun m => getItem m "p")) =
      some { cid := "c", acl := { write := ["o"], read := ["o"], delete := ["o"] },
             createdAt := 1, updatedAt := 1 } ∧
    ((upsertItemAtPath demoBucket "p" "c" 1).bind
        (fun b1 => upsertItemAtPath b1 "p" "c" 2)).bind
        (fun b2 => b2.items.bind (fun m => getItem m "p")) =
      some { cid := "c", acl := { write := ["o"], read := ["o"], delete := ["o"] },
             createdAt := 2, updatedAt := 2 } := by decide

/-- C6: when the bucket holds an item x at path pth and a different cid c
is upserted, the call returns the same bucket with only that binding
replaced by x with cid := c and updatedAt := nanos; the item CreatedAt
and ACL are preserved and every other path maps to its previous item. -/
theorem upsert_different_cid_updates (b : Bucket) (m : ItemMap) (pth c : String)
    (nanos : Int) (x : Item) (hb : b.items = some m)
    (hx : getItem m pth = some x) (hc : x.cid ≠ c) :
    upsertItemAtPath b pth c nanos =
      some { b with items := some (setItem m pth { x with cid := c, updatedAt := nanos }) } ∧
    getItem (setItem m pth { x with cid := c, updatedAt := nanos }) pth =
      some { cid := c, acl := x.acl, createdAt := x.createdAt, updatedAt := nanos } ∧
    (∀ q, q ≠ pth →
      getItem (setItem m pth { x with cid := c, updatedAt := nanos }) q = getItem m q) := by
  refine ⟨?_, ?_, ?_⟩
  · simp [upsertItemAtPath, hb, hx, hc]
  · exact getItem_setItem_self m pth _
  · exact fun q hq => getItem_setItem_other m pth q _ hq

theorem upsert_different_cid_updates_witness :
    upsertItemAtPath demoBucketWithItems "p" "c2" 9 =
      some { demoBucketWithItems with
             items := some (setItem demoMap "p" { demoItem with cid := "c2", updatedAt := 9 }) } ∧
    getItem (setItem demoMap "p" { demoItem with cid := "c2", updatedAt := 9 }) "p" =
      some { cid := "c2", acl := demoItem.acl, createdAt := demoItem.createdAt, updatedAt := 9 } ∧
    (∀ q, q ≠ "p" →
      getItem (setItem demoMap "p" { demoItem with cid := "c2", updatedAt := 9 }) q =
        getItem demoMap q) :=
  upsert_different_cid_updates demoBucketWithItems demoMap "p" "c2" 9 demoItem
    rfl (by decide) (by decide)

/-- C3 failing evaluation: ensureNoNulls saves Archives.Current into a
local before the inner normalization writes Archives.Current, and the
final write rebuilds Archives from that earlier copy, so a nil
Current.Deals survives normalization; History entries are never visited,
so a nil Deals inside a history entry survives as well.  The record that
SaveSafe hands to the store therefore still carries nil Deals. -/
theorem ensureNoNulls_nil_deals_persist :
    (ensureNoNulls nilDealsBucket).archives.current.deals = none ∧
    (saveSafe nilDealsBucket (fun _ => .ok ())).1.archives.current.deals = none ∧
    (ensureNoNulls nilHistDealsBucket).archives.history =
      some [{ cid := "hc", deals := none }] := by decide

theorem ensureNoNulls_eq (b : Bucket) :
    ensureNoNulls b =
      { b with
        items := some (b.items.getD [])
        archives :=
          if lenOpt b.archives.history = 0 then
            { current := b.archives.current, history := some [] }
          else b.archives } := by
  rcases b with ⟨k, o, n, v, e, p, items, ⟨cur, hist⟩, ca, ua⟩
  by_cases hd : lenOpt cur.deals = 0
  all_goals simp only [lenOpt] at hd
  · cases items <;> rcases hist with _ | h
    · simp [ensureNoNulls, lenOpt, hd]
    · by_cases hh : h.length = 0 <;> simp [ensureNoNulls, lenOpt, hd, hh]
    · simp [ensureNoNulls, lenOpt, hd]
    · by_cases hh : h.length = 0 <;> simp [ensureNoNulls, lenOpt, hd, hh]
  · cases items <;> rcases hist with _ | h
    · simp [ensureNoNulls, lenOpt, hd]
    · by_cases hh : h.length = 0 <;> simp [ensureNoNulls, lenOpt, hd, hh]
    · simp [ensureNoNulls, lenOpt, hd]
    · by_cases hh : h.length = 0 <;> simp [ensureNoNulls, lenOpt, hd, hh]

/-- C4: normalization is total and idempotent: it always yields a non-nil
Items map (empty when the input map was nil, identical otherwise),
replaces a nil Archives.History with an empty sequence, keeps a non-empty
history as is, leaves Archives.Current and every other field unchanged,
and applying it twice yields the same record as applying it once. -/
theorem ensureNoNulls_total_idempotent (b : Bucket) :
    (ensureNoNulls b).items ≠ none ∧
    (b.items = none → (ensureNoNulls b).items = some []) ∧
    (∀ m, b.items = some m → (ensureNoNulls b).items = some m) ∧
    (ensureNoNulls b).archives.current = b.archives.current ∧
    (b.archives.history = none → (ensureNoNulls b).archives.history = some []) ∧
    (∀ h, b.archives.history = some h → h ≠ [] →
      (ensureNoNulls b).archives.history = some h) ∧
    (ensureNoNulls b).key = b.key ∧ (ensureNoNulls b).owner = b.owner ∧
    (ensureNoNulls b).name = b.name ∧ (ensureNoNulls b).version = b.version ∧
    (ensureNoNulls b).encKey = b.encKey ∧ (ensureNoNulls b).path = b.path ∧
    (ensureNoNulls b).createdAt = b.createdAt ∧
    (ensureNoNulls b).updatedAt = b.updatedAt ∧
    ensureNoNulls (ensureNoNulls b) = ensureNoNulls b := by
  by_cases hl : lenOpt b.archives.history = 0
  · refine ⟨by simp [ensureNoNulls_eq], fun h => by simp [ensureNoNulls_eq, h],
      ?_, ?_, ?_, ?_, ?_⟩
    · intro m hm
      simp [ensureNoNulls_eq, hm]
    · simp [ensureNoNulls_eq, hl]
    · intro _
      simp [ensureNoNulls_eq, hl]
    · intro h hh hne
      exfalso
      rw [hh] at hl
      simp [lenOpt, List.length_eq_zero] at hl
      exact hne hl
    · refine ⟨by simp [ensureNoNulls_eq, hl], by simp [ensureNoNulls_eq, hl],
        by simp [ensureNoNulls_eq, hl], by simp [ensureNoNulls_eq, hl],
        by simp [ensureNoNulls_eq, hl], by simp [ensureNoNulls_eq, hl],
        by simp [ensureNoNulls_eq, hl], by simp [ensureNoNulls_eq, hl], ?_⟩
      rw [ensureNoNulls_eq b, if_pos hl, ensureNoNulls_eq]
      simp [lenOpt]
  · have hhist : (ensureNoNulls b).archives = b.archives := by
      simp [ensureNoNulls_eq, hl]
    refine ⟨by simp [ensureNoNulls_eq], fun h => by simp [ensureNoNulls_eq, h],
      ?_, ?_, ?_, ?_, ?_⟩
    · intro m hm
      simp [ensureNoNulls_eq, hm]
    · simp [hhist]
    · intro hh
      exfalso
      rw [hh] at hl
      simp [lenOpt] at hl
    · intro h hh _
      rw [hhist, hh]
    · refine ⟨by simp [ensureNoNulls_eq, hl], by simp [ensureNoNulls_eq, hl],
        by simp [ensureNoNulls_eq, hl], by simp [ensureNoNulls_eq, hl],
        by simp [ensureNoNulls_eq, hl], by simp [ensureNoNulls_eq, hl],
        by simp [ensureNoNulls_eq, hl], by simp [ensureNoNulls_eq, hl], ?_⟩
      rw [ensureNoNulls_eq b, if_neg hl, ensureNoNulls_eq]
      simp only [lenOpt] at hl
      simp [lenOpt, hl]

theorem ensureNoNulls_total_idempotent_witness :
    (ensureNoNulls { demoBucket with items := none, archives := { current := { cid := "z", deals := some [] }, history := none } }).items = some [] ∧
    (ensureNoNulls { demoBucket with items := none, archives := { current := { cid := "z", deals := some [] }, history := none } }).archives.history = some [] :=
  ⟨(ensureNoNulls_total_idempotent _).2.1 rfl,
   (ensureNoNulls_total_idempotent _).2.2.2.2.1 rfl⟩

/-- C7: given that the metadata fetch succeeds, ArchiveStatus fails with
ErrNoCurrentArchive exactly when no current job id is recorded; fails
with the aborted error carrying the recorded abort message exactly when a
job id is recorded and the current archive is marked aborted; and
otherwise returns exactly the persisted job status and failure message. -/
theorem archiveStatus_cases (ffsi : FFSInstanceRec) :
    (archiveStatus (.ok ffsi) = .error .noCurrentArchive ↔ ffsi.current.jobID = "") ∧
    (∀ msg, archiveStatus (.ok ffsi) = .error (.abortedErr msg) ↔
      (ffsi.current.jobID ≠ "" ∧ ffsi.current.aborted = true ∧
       msg = ffsi.current.abortedMsg)) ∧
    (∀ st fm, archiveStatus (.ok ffsi) = .ok (st, fm) ↔
      (ffsi.current.jobID ≠ "" ∧ ffsi.current.aborted = false ∧
       st = ffsi.current.jobStatus ∧ fm = ffsi.current.failureMsg)) := by
  rcases ffsi with ⟨jid, jst, fmsg, ab, abmsg⟩
  by_cases hj : jid = ""
  · subst hj
    simp [archiveStatus]
  · cases ab <;> simp [archiveStatus, hj, eq_comm]

theorem archiveStatus_cases_witness :
    archiveStatus (.ok noJobRec) = .error .noCurrentArchive ∧
    archiveStatus (.ok abortedRec) = .error (.abortedErr "boom") ∧
    archiveStatus (.ok liveJobRec) = .ok (5, "f") :=
  ⟨(archiveStatus_cases noJobRec).1.mpr rfl,
   ((archiveStatus_cases abortedRec).2.1 "boom").mpr ⟨by decide, rfl, rfl⟩,
   ((archiveStatus_cases liveJobRec).2.2 5 "f").mpr ⟨by decide, rfl, rfl, rfl⟩⟩

/-- C9: when a defined caller token with subject s is supplied and the
owner argument is o, New fails with the token owner mismatch error
exactly when o differs from s (whatever the store and FFS outcomes are);
when the token is absent the mismatch error is never produced. -/
theorem new_token_mismatch_iff (key pth o name : String) (ekArg : Option String)
    (s : String) (now : Int) (cr : Except String String)
    (fr : Except String Unit) :
    (bucketsNew key pth (some o) name ekArg (.present (.ok (some s))) now cr fr =
        some (.error .tokenOwnerMismatch) ↔ o ≠ s) ∧
    (∀ ow, bucketsNew key pth ow name ekArg .absent now cr fr ≠
        some (.error .tokenOwnerMismatch)) := by
  constructor
  · constructor
    · intro h
      by_cases ho : o = s
      · exfalso
        cases cr with
        | error e => simp [bucketsNew, ho] at h
        | ok id => cases fr <;> simp [bucketsNew, ho] at h
      · exact ho
    · intro ho
      simp [bucketsNew, ho]
  · intro ow
    cases cr with
    | error e => simp [bucketsNew]
    | ok id => cases fr <;> simp [bucketsNew]

theorem new_token_mismatch_iff_witness :
    bucketsNew "k" "pth" (some "a") "" none (.present (.ok (some "b"))) 0
      (.ok "id") (.ok ()) = some (.error .tokenOwnerMismatch) ∧
    bucketsNew "k" "pth" (some "a") "" none .absent 0
      (.ok "id") (.ok ()) ≠ some (.error .tokenOwnerMismatch) :=
  ⟨(new_token_mismatch_iff "k" "pth" "a" "" none "b" 0 (.ok "id") (.ok ())).1.mpr
      (by decide),
   (new_token_mismatch_iff "k" "pth" "a" "" none "b" 0 (.ok "id") (.ok ())).2
      (some "a")⟩

/-- C10: with a configured Powergate client and successful Create and Info
calls, an Info reply with an empty balance list drives createFFSInstance
into the unguarded Balances[0] access, a panic; any non-empty balance
list avoids the panic whatever the later call outcomes are. -/
theorem createFFSInstance_empty_balances_panic (tok : String)
    (sv cf : Except String Unit) :
    createFFSInstance true (.ok tok) (.ok []) sv cf = none ∧
    (∀ w ws, createFFSInstance true (.ok tok) (.ok (w :: ws)) sv cf ≠ none) := by
  constructor
  · rfl
  · intro w ws
    cases sv with
    | error e => simp [createFFSInstance]
    | ok u => cases cf <;> simp [createFFSInstance]

theorem createFFSInstance_empty_balances_panic_witness :
    createFFSInstance true (.ok "t") (.ok []) (.ok ()) (.ok ()) = none ∧
    createFFSInstance true (.ok "t") (.ok ["addr"]) (.ok ()) (.ok ()) ≠ none :=
  ⟨(createFFSInstance_empty_balances_panic "t" (.ok ()) (.ok ())).1,
   (createFFSInstance_empty_balances_panic "t" (.ok ()) (.ok ())).2 "addr" []⟩

end Textile
